import Mathlib

/-!
Shallow embedding of the synchronization / transfer engine of the `aura`
package-manager helper (files `src/rust/aura/src/command/aur.rs` and
`src/rust/aura/src/command/cache.rs`), together with proofs about the
behaviour that the specification describes.

External collaborators (the AUR metadata provider, the git client, the
filesystem, the user prompt) are modelled as Boolean/functional oracles,
and the Rust iterator pipelines are modelled as the corresponding pure
list programs.  Rust `String` is modelled by Lean `String`; `str::len`
(a byte count) is modelled by the character count of the string (the two
agree on ASCII data and no property below distinguishes them);
case-folding (`make_ascii_lowercase` / `to_lowercase`) is modelled by
ASCII lowercasing of every character.
-/

namespace Aura

/-- Character-count length of a string; models Rust `str::len`. -/
def charLen (s : String) : Nat := s.data.length

/-- ASCII lowercasing of every character; models `make_ascii_lowercase`
and (on the ASCII fragment) `str::to_lowercase`. -/
def lowerStr (s : String) : String := String.mk (s.data.map Char.toLower)

/-- Substring test: `containsSub hay pat` models Rust `hay.contains(pat)`. -/
def containsSub (hay pat : String) : Bool := decide (pat.data <:+: hay.data)

/-! ### Path model (Unix semantics of `std::path::PathBuf`)

Only the operations the source uses: `push` (via `.iter().collect()`)
and `set_extension`.  The model covers the path shapes that actually
arise here (a non-empty base joined with a non-empty component that has
no trailing slash). -/

/-- `PathBuf::push` (Unix): an absolute component replaces the whole
path, otherwise a `/` separator is inserted when needed. -/
def pathPush (base comp : String) : String :=
  if comp.data.headD ' ' = '/' then comp
  else if base.data = [] then comp
  else if base.data.getLastD ' ' = '/' then String.mk (base.data ++ comp.data)
  else String.mk (base.data ++ '/' :: comp.data)

/-- Core of `PathBuf::set_extension` on the character list of a path:
the final component (after the last `/`) has its extension — the part
after its last dot, where a dot in leading position does not count —
replaced by `ext`; a path whose final component is empty, `.` or `..`
has no file name and is returned unchanged. -/
def rustSetExt (p ext : List Char) : List Char :=
  let rev := p.reverse
  let fnameRev := rev.takeWhile (fun c => c ≠ '/')
  let dirRev := rev.dropWhile (fun c => c ≠ '/')
  let fname := fnameRev.reverse
  if fname = [] ∨ fname = ['.'] ∨ fname = ['.', '.'] then p
  else
    let rest := fnameRev.dropWhile (fun c => c ≠ '.')
    let stem :=
      if rest = [] then fname
      else if rest.tail = [] then fname
      else rest.tail.reverse
    dirRev.reverse ++ stem ++ '.' :: ext

/-- `PathBuf::set_extension` on strings. -/
def setExtension (p ext : String) : String := String.mk (rustSetExt p.data ext.data)

/-- Modelled from the spec: the fixed base URL for AUR package
repositories (constant `AUR_BASE_URL` of the `aura-core` crate, which is
not part of this excerpt). -/
def AUR_BASE_URL : String := "https://aur.archlinux.org"

/-! ### `clone_aur_repo` (aur.rs lines 338-349)

`git_ok remote path` is the oracle for the external
`aura_core::git::shallow_clone(remote, path)` collaborator. -/

/-- The remote URL computed by `clone_aur_repo`:
`[AUR_BASE_URL, package].iter().collect()` followed by
`url.set_extension("git")`. -/
def aurRemoteUrl (package : String) : String :=
  setExtension (pathPush AUR_BASE_URL package) "git"

/-- The local clone path computed by `clone_aur_repo`: the package name
alone, or the package name pushed onto the given root. -/
def aurClonePath (root : Option String) (package : String) : String :=
  match root with
  | none => package
  | some r => pathPush r package

/-- `clone_aur_repo`: request a shallow clone of the computed remote
into the computed path and return that path on success. -/
def clone_aur_repo (git_ok : String → String → Bool) (root : Option String)
    (package : String) : Except Unit String :=
  let url := aurRemoteUrl package
  let clone_path := aurClonePath root package
  if git_ok url clone_path then Except.ok clone_path else Except.error ()

/-! ### The `Validated` accumulator (crate `validated`)

`Validated<(), E>` is `Good(())` when every item succeeded and otherwise
`Fail` with the non-empty list of every item's error; collecting an
iterator of `Result`s into it accumulates all errors instead of stopping
at the first one. -/

inductive Validated (ε : Type) where
  | good : Validated ε
  | fail : List ε → Validated ε
deriving DecidableEq

/-- The error of one item, if any. -/
def errOf : Except ε Unit → Option ε
  | Except.ok _ => none
  | Except.error e => some e

/-- Collect per-item results into a `Validated`, keeping every error. -/
def collectValidated (items : List (Except ε Unit)) : Validated ε :=
  let errs := items.filterMap errOf
  if errs.isEmpty then Validated.good else Validated.fail errs

/-- Whether a per-item operation succeeded. -/
def isOkB : Except ε α → Bool
  | Except.ok _ => true
  | Except.error _ => false

/-- The failure list reported by a batch operation (`clone_aur_repos` or
`refresh` print it before returning `Err(Silent)`); empty on success. -/
def reportedFails : Except (List String) Unit → List String
  | Except.ok _ => []
  | Except.error l => l

/-! ### `clone_aur_repos` (aur.rs lines 228-257) -/

/-- `clone_aur_repos`: run `clone_aur_repo(None, p)` for every package,
mapping each error to the package's name, collect into a `Validated`,
and succeed exactly when it is `Good`.  The error value carries the
failure list that the source prints before returning `Err(Silent)`. -/
def clone_aur_repos (git_ok : String → String → Bool)
    (packages : List String) : Except (List String) Unit :=
  match collectValidated (packages.map (fun p =>
      match clone_aur_repo git_ok none p with
      | Except.ok _ => Except.ok ()
      | Except.error _ => Except.error p)) with
  | Validated.good => Except.ok ()
  | Validated.fail bads => Except.error bads

/-! ### `refresh` (aur.rs lines 260-286) -/

/-- One entry of a scanned directory, as `read_dir` yields it:
`name` is `none` when the OS file name is not valid UTF-8
(`file_name().into_string()` fails), and `isDir` is the file type
test. -/
structure DirEntry where
  name : Option String
  isDir : Bool
deriving DecidableEq

/-- The packages `refresh` actually pulls: directory entries only,
keeping only names that are valid UTF-8 (the `filter`/`filter_map`
pipeline of lines 262-267). -/
def refreshPulls (entries : List DirEntry) : List String :=
  (entries.filter (fun e => e.isDir)).filterMap (fun e => e.name)

/-- `refresh`: pull every clone, mapping each error to the package name,
collect into a `Validated`, succeed exactly when it is `Good`.
`pull_ok` is the oracle for `aura_core::git::pull` on the clone
directory of the given package. -/
def refresh (pull_ok : String → Bool) (entries : List DirEntry) :
    Except (List String) Unit :=
  match collectValidated ((refreshPulls entries).map (fun p =>
      if pull_ok p then Except.ok () else Except.error p)) with
  | Validated.good => Except.ok ()
  | Validated.fail bads => Except.error bads

/-! ### `search` (aur.rs lines 138-209)

A metadata record as returned by the AUR search collaborator
(`aura_core::aur::search`), restricted to the fields this code
consumes. -/

structure Package where
  name : String
  description : Option String
  num_votes : Nat
deriving DecidableEq

/-- Length comparison used by `terms.sort_unstable_by_key(|t| t.len())`. -/
def lenLe (a b : String) : Prop := charLen a ≤ charLen b

instance : DecidableRel lenLe := fun a b => Nat.decLe _ _

instance : IsTotal String lenLe := ⟨fun a b => Nat.le_total _ _⟩

instance : IsTrans String lenLe := ⟨fun _ _ _ => Nat.le_trans⟩

/-- The term list after sanitizing (lines 152-156): sorted ascending by
length, then every term lowercased.  `sort_unstable_by_key` is modelled
by a deterministic comparison sort on the same key; no property below
depends on the order of equal-length terms. -/
def searchPrep (terms : List String) : List String :=
  (List.insertionSort lenLe terms).map lowerStr

/-- The per-term retention test of lines 163-173: the lowercased name or
the lowercased description (empty when absent) contains the term. -/
def termMatch (m : Package) (t : String) : Bool :=
  containsSub (lowerStr m.name) t || containsSub ((m.description.map lowerStr).getD "") t

/-- The retention test as the specification words it: a missing
description matches no term. -/
def claimTermMatch (m : Package) (t : String) : Bool :=
  containsSub (lowerStr m.name) t ||
    (match m.description with
      | none => false
      | some d => containsSub (lowerStr d) t)

/-- The retrieval-and-filter stage of `search` (lines 152-173):
sanitize the terms, pop the longest as the single retrieval query, and
retain only records matching every remaining term.  Returns the queried
term and the retained records; `none` when the term list is empty (the
source `unwrap`s, with non-emptiness guaranteed by the CLI layer). -/
def searchRun (retrieve : String → List Package) (terms : List String) :
    Option (String × List Package) :=
  match (searchPrep terms).getLast? with
  | none => none
  | some initial_term =>
    some (initial_term,
      (retrieve initial_term).filter (fun m =>
        ((searchPrep terms).dropLast).all (fun t => termMatch m t)))

/-- Name comparison of `matches.sort_by(|a, b| a.name.cmp(&b.name))`. -/
def nameLe (a b : Package) : Prop := a.name ≤ b.name

instance : DecidableRel nameLe := fun a b => (inferInstance : Decidable (a.name ≤ b.name))

instance : IsTotal Package nameLe := ⟨fun a b => le_total a.name b.name⟩

instance : IsTrans Package nameLe := ⟨fun _ _ _ h₁ h₂ => le_trans h₁ h₂⟩

/-- Vote comparison of `matches.sort_by(|a, b| b.num_votes.cmp(&a.num_votes))`
(descending vote count). -/
def votesGe (a b : Package) : Prop := b.num_votes ≤ a.num_votes

instance : DecidableRel votesGe := fun a b => Nat.decLe _ _

instance : IsTotal Package votesGe := ⟨fun a b => Nat.le_total _ _⟩

instance : IsTrans Package votesGe := ⟨fun _ _ _ h₁ h₂ => Nat.le_trans h₂ h₁⟩

/-- The sort stage of `search` (lines 176-180): alphabetically by name
when `alpha` is set, otherwise by descending vote count; Rust `sort_by`
is stable, as is `insertionSort`. -/
def searchSorted (alpha : Bool) (ms : List Package) : List Package :=
  if alpha then List.insertionSort nameLe ms
  else List.insertionSort votesGe ms

/-- The sort/reverse/limit stage of `search` (lines 175-186). -/
def searchOrder (alpha rev : Bool) (limit : Option Nat)
    (ms : List Package) : List Package :=
  let sorted := searchSorted alpha ms
  let rved := if rev then sorted.reverse else sorted
  let to_take := limit.getD rved.length
  rved.take to_take

/-! ### `real_packages` (aur.rs lines 315-336) and `install` (lines 291-313) -/

/-- The `PkgPartition` produced by the external
`aura_core::aur::partition_aur_pkgs` collaborator: requested names
split into already-cloned, valid-but-uncloned, and not-real. -/
structure PkgPartition where
  cloned : List String
  to_clone : List String
  not_real : List String
deriving DecidableEq

/-- The outcome of `real_packages`: either the `common-no-valid`
message followed by `Err(Silent)`, or the `(cloned, to_clone)` pair. -/
inductive RealOut where
  | bad (msgKey : String) : RealOut
  | okOut (cloned to_clone : List String) : RealOut
deriving DecidableEq

/-- `real_packages` after the partition call: when both `cloned` and
`to_clone` are empty, print `common-no-valid` in red and fail with
`Error::Silent`; otherwise return the pair (the `not_real` names are
only warned about). -/
def real_packages (part : PkgPartition) : RealOut :=
  if part.cloned.isEmpty && part.to_clone.isEmpty then RealOut.bad "common-no-valid"
  else RealOut.okOut part.cloned part.to_clone

/-- Error type of the `aur.rs` functions (the variants this model
distinguishes). -/
inductive AurErr where
  | silentErr : AurErr
  | gitErr : AurErr
deriving DecidableEq

/-- An observable step of `install`: the partition query against the
metadata provider / clone inventory, or one clone attempt. -/
inductive InstStep where
  | partitionStep : InstStep
  | cloneStep (p : String) : InstStep
deriving DecidableEq

/-- The sequential clone loop of `install` (lines 308-310): each
`clone_aur_repo(Some(clone_dir), p)?` short-circuits on failure.
`clone_ok` is the oracle for one clone succeeding. -/
def installClones (clone_ok : String → Bool) : List String → List InstStep × Except AurErr Unit
  | [] => ([], Except.ok ())
  | p :: ps =>
    if clone_ok p then
      let rest := installClones clone_ok ps
      (InstStep.cloneStep p :: rest.1, rest.2)
    else ([InstStep.cloneStep p], Except.error AurErr.gitErr)

/-- `install`: reject an empty package list before anything else
(lines 292-296), otherwise partition via `real_packages` and clone every
`to_clone` package.  The first component records which observable steps
ran. -/
def install (part : PkgPartition) (clone_ok : String → Bool)
    (pkgs : List String) : List InstStep × Except AurErr Unit :=
  if pkgs.isEmpty then ([], Except.error AurErr.silentErr)
  else
    match real_packages part with
    | RealOut.bad _ => ([InstStep.partitionStep], Except.error AurErr.silentErr)
    | RealOut.okOut _cloned to_clone =>
      let rest := installClones clone_ok to_clone
      (InstStep.partitionStep :: rest.1, rest.2)

/-! ### `cache.rs`: `backup` (lines 86-120) and `copy` (lines 122-151) -/

/-- Errors of `cache.rs` (the variants this model distinguishes). -/
inductive CacheErr where
  | silentErr : CacheErr
  | ioErr : CacheErr
deriving DecidableEq

/-- Modelled from the spec: the aggregate of `core::cache::size`
(crate `aura-core`, not part of this excerpt) — total byte size and
file count of the source directory. -/
structure CacheSize where
  bytes : Nat
  files : Nat
deriving DecidableEq

/-- Modelled from the spec: the file count that `core::cache::size`
reports for a source directory listing — one per entry of the flat
cache directory. -/
def cacheSizeFiles (entries : List DirEntry) : Nat := entries.length

/-- An observable filesystem effect of the backup path: the cache-size
scan, the `create_dir_all` on the target, or one completed file copy. -/
inductive BkEff where
  | sizeQuery : BkEff
  | mkdirEff : BkEff
  | copied (file : String) : BkEff
deriving DecidableEq

/-- `copy` (lines 122-151): create the target directory, then copy each
named source entry, incrementing the locked progress counter once per
successful copy; a failed copy is skipped silently and the function
still returns `Ok(())`.  Result: (effects, final counter value, result).
`mkdir_ok` models `create_dir_all`, `copy_ok n` models
`std::fs::copy` succeeding for the entry named `n`; the `file_count`
argument only seeds the progress-bar denominator. -/
def copy (mkdir_ok : Bool) (copy_ok : String → Bool)
    (entries : List DirEntry) (file_count : Nat) :
    List BkEff × Nat × Except CacheErr Unit :=
  if mkdir_ok then
    (BkEff.mkdirEff :: ((entries.filterMap (fun e => e.name)).filter copy_ok).map BkEff.copied,
     (entries.filterMap (fun e => e.name)).countP copy_ok,
     Except.ok ())
  else ([BkEff.mkdirEff], 0, Except.error CacheErr.ioErr)

/-- `backup` (lines 86-120): if the target is an existing regular file,
print the `cache-backup-file` message and abort with `Err(Silent)`
before anything else; otherwise query the cache size (fallible), show
the target, prompt the user (fallible), and run `copy`.
`target_is_file` models `target.is_file()`, `size_res` the
`core::cache::size(source)` collaborator, `target_count` the
`target.read_dir()` entry count (only selects a message), `prompt_ok`
the user confirmation. -/
def backup (target_is_file : Bool) (size_res : Option CacheSize)
    (target_count : Nat) (prompt_ok : Bool) (mkdir_ok : Bool)
    (copy_ok : String → Bool) (entries : List DirEntry) :
    List BkEff × Except CacheErr Unit :=
  if target_is_file then ([], Except.error CacheErr.silentErr)
  else
    match size_res with
    | none => ([BkEff.sizeQuery], Except.error CacheErr.ioErr)
    | some cache_size =>
      if prompt_ok then
        let r := copy mkdir_ok copy_ok entries cache_size.files
        (BkEff.sizeQuery :: r.1, r.2.2)
      else ([BkEff.sizeQuery], Except.error CacheErr.ioErr)

/-! ## Helper lemmas -/

theorem filterMap_errOf_if {α : Type} (g : α → Bool) (l : List α) :
    (l.map (fun a => if g a then (Except.ok () : Except α Unit) else Except.error a)).filterMap
        errOf = l.filter (fun a => !g a) := by
  induction l with
  | nil => rfl
  | cons a t ih =>
    by_cases h : g a
    · simp [h, errOf, ih]
    · simp [h, errOf, ih]

theorem collectValidated_if {α : Type} (g : α → Bool) (l : List α) :
    collectValidated (l.map (fun a =>
        if g a then (Except.ok () : Except α Unit) else Except.error a)) =
      (if (l.filter (fun a => !g a)).isEmpty
        then Validated.good
        else Validated.fail (l.filter (fun a => !g a))) := by
  unfold collectValidated
  rw [filterMap_errOf_if g l]

theorem clone_aur_repos_eq (git_ok : String → String → Bool) (packages : List String) :
    clone_aur_repos git_ok packages =
      (if (packages.filter (fun p => !isOkB (clone_aur_repo git_ok none p))).isEmpty
        then Except.ok ()
        else Except.error
          (packages.filter (fun p => !isOkB (clone_aur_repo git_ok none p)))) := by
  unfold clone_aur_repos
  have hfun : (fun p => match clone_aur_repo git_ok none p with
      | Except.ok _ => (Except.ok () : Except String Unit)
      | Except.error _ => Except.error p) =
      (fun p => if isOkB (clone_aur_repo git_ok none p)
        then Except.ok () else Except.error p) := by
    funext p
    cases h : clone_aur_repo git_ok none p <;> simp [h, isOkB]
  rw [hfun, collectValidated_if]
  by_cases h : (packages.filter
      (fun p => !isOkB (clone_aur_repo git_ok none p))).isEmpty = true
  · rw [if_pos h, if_pos h]
  · rw [if_neg h, if_neg h]

theorem refresh_eq (pull_ok : String → Bool) (entries : List DirEntry) :
    refresh pull_ok entries =
      (if ((refreshPulls entries).filter (fun p => !pull_ok p)).isEmpty
        then Except.ok ()
        else Except.error ((refreshPulls entries).filter (fun p => !pull_ok p))) := by
  unfold refresh
  rw [collectValidated_if]
  by_cases h : ((refreshPulls entries).filter (fun p => !pull_ok p)).isEmpty = true
  · rw [if_pos h, if_pos h]
  · rw [if_neg h, if_neg h]

theorem if_pattern_ok_iff (g : String → Bool) (l : List String) :
    ((if (l.filter (fun a => !g a)).isEmpty
        then (Except.ok () : Except (List String) Unit)
        else Except.error (l.filter (fun a => !g a))) = Except.ok ()) ↔
      ∀ a ∈ l, g a = true := by
  by_cases h : (l.filter (fun a => !g a)).isEmpty
  · simp only [h, if_true, true_iff]
    rw [List.isEmpty_iff, List.filter_eq_nil_iff] at h
    intro a ha
    have := h a ha
    simpa using this
  · simp only [h, if_false]
    constructor
    · intro hco
      exact absurd hco (by simp)
    · intro hall
      exfalso
      apply h
      rw [List.isEmpty_iff, List.filter_eq_nil_iff]
      intro a ha
      simp [hall a ha]

theorem reportedFails_if (g : String → Bool) (l : List String) :
    reportedFails
        (if (l.filter (fun a => !g a)).isEmpty
          then Except.ok ()
          else Except.error (l.filter (fun a => !g a))) =
      l.filter (fun a => !g a) := by
  by_cases h : (l.filter (fun a => !g a)).isEmpty = true
  · rw [if_pos h]
    exact (List.isEmpty_iff.mp h).symm
  · rw [if_neg h]
    rfl

theorem charLen_lowerStr (s : String) : charLen (lowerStr s) = charLen s := by
  simp [charLen, lowerStr]

theorem mem_of_getLast?_eq {α : Type} {l : List α} {x : α}
    (h : l.getLast? = some x) : x ∈ l := by
  obtain ⟨hne, hx⟩ := List.mem_getLast?_eq_getLast (Option.mem_def.mpr h)
  rw [hx]
  exact List.getLast_mem hne

theorem sorted_getLast?_rel {α : Type} {r : α → α → Prop} :
    ∀ (l : List α) (y : α), l.Sorted r → l.getLast? = some y →
      ∀ x ∈ l, x = y ∨ r x y := by
  intro l
  induction l with
  | nil => simp
  | cons a t ih =>
    intro y hs hy x hx
    cases t with
    | nil =>
      simp only [List.getLast?_singleton, Option.some.injEq] at hy
      simp only [List.mem_singleton] at hx
      subst hy hx
      exact Or.inl rfl
    | cons b u =>
      rw [List.getLast?_cons_cons] at hy
      rw [List.sorted_cons] at hs
      rcases List.mem_cons.mp hx with rfl | hmem
      · exact Or.inr (hs.1 y (mem_of_getLast?_eq hy))
      · exact ih y hs.2 hy x hmem

theorem termMatch_eq_claim (m : Package) (t : String) :
    termMatch m t = claimTermMatch m t := by
  cases hd : m.description with
  | some d => simp [termMatch, claimTermMatch, hd]
  | none =>
    have hemp : ("" : String).data = [] := rfl
    simp only [termMatch, claimTermMatch, hd, Option.map_none', Option.getD_none,
      Bool.or_false]
    by_cases ht : t.data = []
    · have h1 : containsSub (lowerStr m.name) t = true := by
        simp [containsSub, ht]
      have h2 : containsSub "" t = true := by
        simp [containsSub, ht]
      rw [h1, h2]
      rfl
    · have h2 : containsSub "" t = false := by
        simp only [containsSub, hemp, decide_eq_false_iff_not]
        intro hinf
        exact ht (List.eq_nil_of_infix_nil hinf)
      rw [h2, Bool.or_false]

theorem searchPrep_sorted (terms : List String) :
    (searchPrep terms).Sorted lenLe := by
  have hs : (List.insertionSort lenLe terms).Sorted lenLe :=
    List.sorted_insertionSort lenLe terms
  exact hs.map lowerStr (fun a b hab => by
    unfold lenLe at hab ⊢
    rwa [charLen_lowerStr, charLen_lowerStr])

theorem map_orderedInsert_lower (a₁ a₂ : String) (l₁ l₂ : List String)
    (ha : lowerStr a₁ = lowerStr a₂) (hl : l₁.map lowerStr = l₂.map lowerStr) :
    (List.orderedInsert lenLe a₁ l₁).map lowerStr =
      (List.orderedInsert lenLe a₂ l₂).map lowerStr := by
  induction l₁ generalizing l₂ with
  | nil =>
    cases l₂ with
    | nil => simpa using ha
    | cons b₂ t₂ => simp at hl
  | cons b₁ t₁ ih =>
    cases l₂ with
    | nil => simp at hl
    | cons b₂ t₂ =>
      simp only [List.map_cons, List.cons.injEq] at hl
      obtain ⟨hb, ht⟩ := hl
      have hlena : charLen a₁ = charLen a₂ := by
        rw [← charLen_lowerStr a₁, ← charLen_lowerStr a₂, ha]
      have hlenb : charLen b₁ = charLen b₂ := by
        rw [← charLen_lowerStr b₁, ← charLen_lowerStr b₂, hb]
      by_cases h : lenLe a₁ b₁
      · have h₂ : lenLe a₂ b₂ := by
          unfold lenLe at h ⊢
          rwa [← hlena, ← hlenb]
        simp only [List.orderedInsert, if_pos h, if_pos h₂, List.map_cons]
        rw [ha, hb, ht]
      · have h₂ : ¬ lenLe a₂ b₂ := by
          unfold lenLe at h ⊢
          rwa [← hlena, ← hlenb]
        simp only [List.orderedInsert, if_neg h, if_neg h₂, List.map_cons]
        rw [hb, ih _ ht]

theorem searchPrep_congr {ts₁ ts₂ : List String}
    (h : ts₁.map lowerStr = ts₂.map lowerStr) :
    searchPrep ts₁ = searchPrep ts₂ := by
  unfold searchPrep
  induction ts₁ generalizing ts₂ with
  | nil =>
    cases ts₂ with
    | nil => rfl
    | cons a₂ t₂ => simp at h
  | cons a₁ t₁ ih =>
    cases ts₂ with
    | nil => simp at h
    | cons a₂ t₂ =>
      simp only [List.map_cons, List.cons.injEq] at h
      simp only [List.insertionSort]
      exact map_orderedInsert_lower a₁ a₂ _ _ h.1 (ih h.2)

/-! ## Claim theorems -/

/-- C1: both batch operations (`clone_aur_repos` over the requested
package names and `refresh` over the clone directories) attempt the
per-item operation for every item, return success exactly when every
item succeeded, and otherwise report a failure list containing exactly
the name of every item whose underlying operation failed (the error
detail is discarded but the name is retained). -/
theorem batch_accumulates_all_failures (git_ok : String → String → Bool)
    (packages : List String) (pull_ok : String → Bool) (entries : List DirEntry) :
    (clone_aur_repos git_ok packages = Except.ok () ↔
        ∀ p ∈ packages, isOkB (clone_aur_repo git_ok none p) = true)
      ∧ (∀ p, p ∈ reportedFails (clone_aur_repos git_ok packages) ↔
          p ∈ packages ∧ isOkB (clone_aur_repo git_ok none p) = false)
      ∧ (refresh pull_ok entries = Except.ok () ↔
          ∀ p ∈ refreshPulls entries, pull_ok p = true)
      ∧ (∀ p, p ∈ reportedFails (refresh pull_ok entries) ↔
          p ∈ refreshPulls entries ∧ pull_ok p = false) := by
  refine ⟨?_, ?_, ?_, ?_⟩
  · rw [clone_aur_repos_eq]
    exact if_pattern_ok_iff _ packages
  · intro p
    rw [clone_aur_repos_eq, reportedFails_if, List.mem_filter]
    simp
  · rw [refresh_eq]
    exact if_pattern_ok_iff _ (refreshPulls entries)
  · intro p
    rw [refresh_eq, reportedFails_if, List.mem_filter]
    simp

/-- C2: for a non-empty term list, `search` issues exactly one retrieval
call, whose (lowercased) query is a term of maximal length, and retains
from the returned records exactly those for which every remaining
(shorter, lowercased) term is a substring of the record's name or of its
description — conjunction across terms, disjunction between name and
description per term, and a missing description matching no term. -/
theorem search_longest_and_filter (retrieve : String → List Package)
    (terms : List String) (h : terms ≠ []) :
    ∃ t0, searchRun retrieve terms =
        some (t0, (retrieve t0).filter (fun m =>
          ((searchPrep terms).dropLast).all (fun t => claimTermMatch m t)))
      ∧ t0 ∈ terms.map lowerStr
      ∧ ∀ t ∈ terms, charLen t ≤ charLen t0 := by
  have hne : searchPrep terms ≠ [] := by
    unfold searchPrep
    intro hcontra
    rw [List.map_eq_nil_iff] at hcontra
    exact h ((hcontra ▸ List.perm_insertionSort lenLe terms).symm.eq_nil)
  cases hlast : (searchPrep terms).getLast? with
  | none => exact absurd (List.getLast?_eq_none_iff.mp hlast) hne
  | some t0 =>
    have hmatchfun : termMatch = claimTermMatch :=
      funext fun m => funext fun t => termMatch_eq_claim m t
    refine ⟨t0, ?_, ?_, ?_⟩
    · unfold searchRun
      rw [hlast, hmatchfun]
    · have ht0 : t0 ∈ searchPrep terms := mem_of_getLast?_eq hlast
      unfold searchPrep at ht0
      obtain ⟨x, hx, hlx⟩ := List.mem_map.mp ht0
      exact List.mem_map.mpr ⟨x, (List.mem_insertionSort lenLe).mp hx, hlx⟩
    · intro t ht
      have hmem : lowerStr t ∈ searchPrep terms := by
        unfold searchPrep
        exact List.mem_map.mpr ⟨t, (List.mem_insertionSort lenLe).mpr ht, rfl⟩
      rcases sorted_getLast?_rel (searchPrep terms) t0 (searchPrep_sorted terms)
          hlast (lowerStr t) hmem with heq | hrel
      · rw [← charLen_lowerStr t, heq]
      · rw [← charLen_lowerStr t]
        exact hrel

/-- Witness for C2 at a concrete input. -/
theorem search_longest_and_filter_witness :
    ∃ t0, searchRun (fun _ => ([] : List Package)) ["b", "aa"] =
        some (t0, ((fun _ => ([] : List Package)) t0).filter (fun m =>
          ((searchPrep ["b", "aa"]).dropLast).all (fun t => claimTermMatch m t)))
      ∧ t0 ∈ ["b", "aa"].map lowerStr
      ∧ ∀ t ∈ ["b", "aa"], charLen t ≤ charLen t0 :=
  search_longest_and_filter (fun _ => []) ["b", "aa"] (by decide)

/-- C5: the retrieval-and-filter stage of `search` is case-insensitive
in the search terms — any two raw term lists that agree after
lowercasing (in particular, one obtained from the other by changing
letter case) produce the same query and the same retained records. -/
theorem search_case_insensitive (retrieve : String → List Package)
    (ts₁ ts₂ : List String) (h : ts₁.map lowerStr = ts₂.map lowerStr) :
    searchRun retrieve ts₁ = searchRun retrieve ts₂ := by
  unfold searchRun
  rw [searchPrep_congr h]

/-- Witness for C5 at a concrete input. -/
theorem search_case_insensitive_witness :
    (["Foo"].map lowerStr = ["fOO"].map lowerStr)
      ∧ searchRun (fun _ => ([] : List Package)) ["Foo"] =
          searchRun (fun _ => ([] : List Package)) ["fOO"] :=
  ⟨by decide, search_case_insensitive (fun _ => []) ["Foo"] ["fOO"] (by decide)⟩

/-- C6: after filtering, `search` sorts alphabetically ascending by name
(`alpha` set) or by descending vote count (otherwise) with a stable
sort of the retained records, then reverses when `rev` is set, then
truncates to the caller-supplied limit — all records when no limit is
given.  The model is a pure function, so repeated runs over identical
data produce identical output. -/
theorem search_order_spec (alpha rev : Bool) (limit : Option Nat)
    (ms : List Package) :
    List.Perm (searchSorted alpha ms) ms
      ∧ (searchSorted true ms).Sorted nameLe
      ∧ (searchSorted false ms).Sorted votesGe
      ∧ searchOrder alpha rev none ms =
          (if rev then (searchSorted alpha ms).reverse else searchSorted alpha ms)
      ∧ searchOrder alpha rev limit ms =
          (if rev then (searchSorted alpha ms).reverse
            else searchSorted alpha ms).take (limit.getD ms.length) := by
  have hperm : List.Perm (searchSorted alpha ms) ms := by
    cases alpha with
    | false => simpa [searchSorted] using List.perm_insertionSort votesGe ms
    | true => simpa [searchSorted] using List.perm_insertionSort nameLe ms
  have hlen : (if rev then (searchSorted alpha ms).reverse
      else searchSorted alpha ms).length = ms.length := by
    cases rev with
    | false => simpa using hperm.length_eq
    | true => simpa using hperm.length_eq
  refine ⟨hperm, ?_, ?_, ?_, ?_⟩
  · simpa [searchSorted] using List.sorted_insertionSort nameLe ms
  · simpa [searchSorted] using List.sorted_insertionSort votesGe ms
  · show (if rev then (searchSorted alpha ms).reverse
        else searchSorted alpha ms).take
        ((none : Option Nat).getD (if rev then (searchSorted alpha ms).reverse
          else searchSorted alpha ms).length) = _
    rw [Option.getD_none, List.take_length]
  · show (if rev then (searchSorted alpha ms).reverse
        else searchSorted alpha ms).take
        (limit.getD (if rev then (searchSorted alpha ms).reverse
          else searchSorted alpha ms).length) = _
    cases limit with
    | none => rw [Option.getD_none, Option.getD_none, List.take_length,
        ← hlen, List.take_length]
    | some n => rfl

/-- C3 (divergence of `set_extension`): for a package name containing a
dot, `clone_aur_repo` does not append `.git` to the package name — it
replaces the name's final dot-suffix — so the requested remote is the
repository of a different package.  At the same input the local clone
path and the returned path behave as specified. -/
theorem clone_aur_repo_dot_divergence :
    aurRemoteUrl "a.b" = "https://aur.archlinux.org/a.git"
      ∧ aurRemoteUrl "a.b" ≠ "https://aur.archlinux.org/a.b.git"
      ∧ clone_aur_repo (fun _ _ => true) (some "root") "a.b" = Except.ok "root/a.b" := by
  refine ⟨by decide, by decide, by rfl⟩

/-- C4: in the cache transfer, the progress counter ends exactly at the
number of successfully copied source entries (each success increments it
once, a failed copy does not), that count never exceeds the source file
count computed before copying began, and an individual copy failure does
not abort the batch — the operation still returns success. -/
theorem copy_counter_spec (copy_ok : String → Bool) (entries : List DirEntry) :
    (copy true copy_ok entries (cacheSizeFiles entries)).2.1 =
        ((entries.filterMap (fun e => e.name)).filter copy_ok).length
      ∧ (copy true copy_ok entries (cacheSizeFiles entries)).2.1 ≤
          cacheSizeFiles entries
      ∧ (copy true copy_ok entries (cacheSizeFiles entries)).2.2 = Except.ok () := by
  refine ⟨?_, ?_, rfl⟩
  · simp only [copy, if_true]
    exact List.countP_eq_length_filter _ _
  · simp only [copy, if_true]
    calc (entries.filterMap (fun e => e.name)).countP copy_ok
        ≤ (entries.filterMap (fun e => e.name)).length := List.countP_le_length _
      _ ≤ entries.length := List.length_filterMap_le _ _
      _ = cacheSizeFiles entries := rfl

/-- C7: when the backup target is an existing regular file, `backup`
aborts with a single terminal error before computing the cache size,
creating any directory, or copying anything — the effect trace is empty,
so the filesystem is left unchanged. -/
theorem backup_file_target_aborts (size_res : Option CacheSize)
    (target_count : Nat) (prompt_ok : Bool) (mkdir_ok : Bool)
    (copy_ok : String → Bool) (entries : List DirEntry) :
    backup true size_res target_count prompt_ok mkdir_ok copy_ok entries =
      ([], Except.error CacheErr.silentErr) := rfl

/-- C8: when the partition leaves both `cloned` and `to_clone` empty,
`real_packages` reports the distinct `common-no-valid` error, which is
not equal to any ordinary (possibly empty) success result. -/
theorem real_packages_all_invalid (part : PkgPartition)
    (h₁ : part.cloned = []) (h₂ : part.to_clone = []) :
    real_packages part = RealOut.bad "common-no-valid"
      ∧ ∀ c t, RealOut.bad "common-no-valid" ≠ RealOut.okOut c t := by
  refine ⟨?_, fun c t => by simp⟩
  simp [real_packages, h₁, h₂]

/-- Witness for C8 at a concrete partition. -/
theorem real_packages_all_invalid_witness :
    real_packages ⟨[], [], ["bogus"]⟩ = RealOut.bad "common-no-valid"
      ∧ ∀ c t, RealOut.bad "common-no-valid" ≠ RealOut.okOut c t :=
  real_packages_all_invalid ⟨[], [], ["bogus"]⟩ rfl rfl

/-- C9: `install` with an empty package list fails immediately with
`Error::Silent`: the step trace is empty, so neither the partition query
(metadata provider) nor any clone is attempted. -/
theorem install_empty_rejected (part : PkgPartition) (clone_ok : String → Bool) :
    install part clone_ok [] = ([], Except.error AurErr.silentErr) := rfl

/-- C10: a directory entry whose file name is not valid UTF-8 is
silently skipped by `refresh`: it is neither pulled nor recorded as a
failure, and the whole outcome is as if the entry were absent. -/
theorem refresh_skips_non_utf8 (pull_ok : String → Bool)
    (l₁ l₂ : List DirEntry) (e : DirEntry) (h : e.name = none) :
    refreshPulls (l₁ ++ e :: l₂) = refreshPulls (l₁ ++ l₂)
      ∧ refresh pull_ok (l₁ ++ e :: l₂) = refresh pull_ok (l₁ ++ l₂) := by
  have h1 : refreshPulls (l₁ ++ e :: l₂) = refreshPulls (l₁ ++ l₂) := by
    unfold refreshPulls
    rw [List.filter_append, List.filter_append, List.filterMap_append,
      List.filterMap_append]
    congr 1
    cases hdir : e.isDir with
    | false => simp [List.filter_cons, hdir]
    | true => simp [List.filter_cons, hdir, List.filterMap_cons, h]
  refine ⟨h1, ?_⟩
  unfold refresh
  rw [h1]

/-- Witness for C10 at a concrete entry. -/
theorem refresh_skips_non_utf8_witness :
    refreshPulls [DirEntry.mk none true] = refreshPulls []
      ∧ refresh (fun _ => true) [DirEntry.mk none true] = refresh (fun _ => true) [] :=
  (by simpa using refresh_skips_non_utf8 (fun _ => true) [] [] (DirEntry.mk none true) rfl)

end Aura
